import Mathlib

/-!
Shallow embedding of the core of the ExplainedNRS repository
(`src/modules/trainer/nc_trainer.py` and `src/modules/utils/general_utils.py`)
together with theorems settling the frozen claims about it.

Global runtime state of the Python program (`torch.distributed.is_initialized()`)
is passed explicitly as a `distributed : Bool` argument.  Python heap aliasing
(tensor in-place `+=`, `copy.deepcopy` of numpy arrays) is modelled by an
explicit store: a list of values addressed by natural-number references.
-/

set_option autoImplicit false

namespace ExplainedNRS

/-! ## Tensors and batches -/

/-- A tensor-like value: payload plus the id of the device it lives on.
Models a `torch.Tensor` as far as the claims need it. -/
structure Tensor where
  data : List Int
  device : Nat
deriving DecidableEq, Repr

/-- Embedding of `Tensor.to(device)`: same payload, moved onto `device`. -/
def Tensor.toDev (t : Tensor) (device : Nat) : Tensor :=
  { t with device := device }

/-- Embedding of `load_batch_data(batch_dict, device, multi_gpu)` from
`src/modules/utils/general_utils.py` (lines 125-131).  `distributed` models
`torch.distributed.is_initialized()`.  The Python code returns `batch_dict`
unchanged when `torch.distributed.is_initialized() and multi_gpu`, and
otherwise returns `{k: v.to(device) for k, v in batch_dict.items()}`. -/
def load_batch_data (distributed : Bool) (batch_dict : List (String × Tensor))
    (device : Nat) (multi_gpu : Bool) : List (String × Tensor) :=
  if distributed && multi_gpu then batch_dict
  else batch_dict.map (fun kv => (kv.1, kv.2.toDev device))

/-! ## gather_dict (general_utils.py, lines 100-113) -/

/-- Embedding of Python `d.update(e)` on dictionaries viewed as partial maps:
every key bound in `e` takes `e`'s value, every other key keeps `d`'s value. -/
def dict_update {K V : Type} (d e : K → Option V) : K → Option V :=
  fun k => match e k with
  | some v => some v
  | none => d k

/-- The merge loop of `gather_dict`:
`for i in range(process_num): dict_object.update(dicts_object[i])`,
where `parts i` is the partial dictionary contributed by rank `i`
(as filled in rank order by `torch.distributed.all_gather_object`). -/
def gather_merge {K V : Type} (dict_object : K → Option V)
    (parts : Nat → K → Option V) (process_num : Nat) : K → Option V :=
  (List.range process_num).foldl (fun d i => dict_update d (parts i)) dict_object

/-- Embedding of `gather_dict(dict_object, process_num)` from
`src/modules/utils/general_utils.py`.  `distributed` models
`torch.distributed.is_initialized()`; when it is false the input dictionary is
returned untouched, otherwise the caller's dictionary is updated with every
rank's gathered copy in rank order `0 .. process_num-1`. -/
def gather_dict {K V : Type} (distributed : Bool) (dict_object : K → Option V)
    (parts : Nat → K → Option V) (process_num : Nat) : K → Option V :=
  if distributed then gather_merge dict_object parts process_num
  else dict_object

theorem gather_merge_zero {K V : Type} (own : K → Option V)
    (parts : Nat → K → Option V) : gather_merge own parts 0 = own := rfl

theorem gather_merge_succ {K V : Type} (own : K → Option V)
    (parts : Nat → K → Option V) (n : Nat) :
    gather_merge own parts (n + 1) = dict_update (gather_merge own parts n) (parts n) := by
  unfold gather_merge
  rw [List.range_succ, List.foldl_append]
  rfl

/-- Helper: on merged dictionaries the value of a key bound by some rank,
all strictly later ranks being unbound, is that rank's value. -/
theorem gather_merge_last_writer {K V : Type} (own : K → Option V)
    (parts : Nat → K → Option V) (n : Nat) (k : K) (i : Nat)
    (hi : i < n) (hsome : (parts i k).isSome)
    (hlater : ∀ j, i < j → j < n → parts j k = none) :
    gather_merge own parts n k = parts i k := by
  induction n with
  | zero => omega
  | succ m ih =>
    rw [gather_merge_succ]
    unfold dict_update
    rcases Nat.lt_succ_iff_lt_or_eq.mp hi with hlt | heq
    · have hm : parts m k = none := hlater m hlt (Nat.lt_succ_self m)
      rw [hm]
      exact ih hlt (fun j hj hj2 => hlater j hj (Nat.lt_succ_of_lt hj2))
    · subst heq
      rcases Option.isSome_iff_exists.mp hsome with ⟨v, hv⟩
      rw [hv]

/-- Helper: every binding of the merged dictionary comes from some rank or
from the caller's own dictionary. -/
theorem gather_merge_mem {K V : Type} (own : K → Option V)
    (parts : Nat → K → Option V) (n : Nat) (k : K) (v : V)
    (h : gather_merge own parts n k = some v) :
    (∃ i, i < n ∧ parts i k = some v) ∨ own k = some v := by
  induction n with
  | zero => exact Or.inr h
  | succ m ih =>
    rw [gather_merge_succ] at h
    unfold dict_update at h
    cases hm : parts m k with
    | some w =>
      rw [hm] at h
      exact Or.inl ⟨m, Nat.lt_succ_self m, hm.trans h⟩
    | none =>
      rw [hm] at h
      rcases ih h with ⟨i, hi, hiv⟩ | hown
      · exact Or.inl ⟨i, Nat.lt_succ_of_lt hi, hiv⟩
      · exact Or.inr hown

/-! ## The _train_epoch loop (nc_trainer.py, lines 73-86) -/

/-- Number of `optimizer.step()` calls performed by the
`for batch_idx, batch_dict in bar:` loop of `NCTrainer._train_epoch`, given
the list of batches the (enumerated) loader iterator yields and the current
`batch_idx`.  Each iteration performs one `optimizer.step()`; the loop body
ends with `if batch_idx == self.len_epoch: break`, i.e. the cutoff test runs
AFTER the optimizer step of that iteration. -/
def train_epoch_steps (len_epoch : Nat) : List Unit → Nat → Nat
  | [], _ => 0
  | _ :: rest, batch_idx =>
    if batch_idx = len_epoch then 1
    else 1 + train_epoch_steps len_epoch rest (batch_idx + 1)

/-! ## news_sampling (general_utils.py, lines 55-69) -/

/-- Model of `random.sample(pool, k)`: draws `k` distinct positions without
replacement.  The randomness source is the oracle `choose`; at each step the
chosen index is reduced modulo the current pool size, the element is emitted
and removed from the pool.  Yields exactly `k` elements whenever
`k ≤ pool.length`, each taken from `pool`. -/
def random_sample (choose : Nat → Nat) : Nat → List Int → List Int
  | 0, _ => []
  | _ + 1, [] => []
  | k + 1, x :: xs =>
    let pool := x :: xs
    let j := choose k % pool.length
    pool.getD j x :: random_sample choose k (pool.take j ++ pool.drop (j + 1))

/-- Embedding of `news_sampling(news, ratio)` from
`src/modules/utils/general_utils.py`: if `ratio > len(news)` return
`news + [0] * (ratio - len(news))`, else return `random.sample(news, ratio)`. -/
def news_sampling (choose : Nat → Nat) (news : List Int) ( ratio : Nat) : List Int :=
  if news.length < ratio then news ++ List.replicate ( ratio - news.length) 0
  else random_sample choose ratio news

theorem random_sample_length (choose : Nat → Nat) :
    ∀ (k : Nat) (pool : List Int), (random_sample choose k pool).length = min k pool.length := by
  intro k
  induction k with
  | zero => intro pool; simp [random_sample]
  | succ m ih =>
    intro pool
    cases pool with
    | nil => simp [random_sample]
    | cons x xs =>
      simp only [random_sample, List.length_cons]
      rw [ih]
      have hj : choose m % (x :: xs).length < (x :: xs).length :=
        Nat.mod_lt _ (by simp)
      simp only [List.length_cons] at hj
      rw [List.length_append, List.length_take, List.length_drop]
      simp only [List.length_cons]
      omega

theorem random_sample_mem (choose : Nat → Nat) :
    ∀ (k : Nat) (pool : List Int) (y : Int), y ∈ random_sample choose k pool → y ∈ pool := by
  intro k
  induction k with
  | zero => intro pool y hy; simp [random_sample] at hy
  | succ m ih =>
    intro pool y hy
    cases pool with
    | nil => simp [random_sample] at hy
    | cons x xs =>
      simp only [random_sample, List.mem_cons] at hy
      rcases hy with hy | hy
      · subst hy
        have hj : choose m % (x :: xs).length < (x :: xs).length :=
          Nat.mod_lt _ (by simp)
        have := List.getD_eq_getElem (x :: xs) x hj
        rw [this]
        exact List.getElem_mem _
      · have htail := ih _ _ hy
        rcases List.mem_append.mp htail with h | h
        · exact List.take_subset _ _ h
        · exact List.drop_subset _ _ h

/-! ## A heap model for Python aliasing -/

/-- Allocate a fresh heap cell holding `v`; returns the new heap and the
reference to the cell. -/
def store_alloc {α : Type} (s : List α) (v : α) : List α × Nat :=
  (s ++ [v], s.length)

/-- Overwrite the heap cell `r` with `v` (an in-place mutation). -/
def store_write {α : Type} (s : List α) (r : Nat) (v : α) : List α :=
  s.set r v

/-- Dereference the heap cell `r`. -/
def store_read {α : Type} (s : List α) (r : Nat) : Option α :=
  s.get? r

/-! ## run_model (nc_trainer.py, lines 35-51) -/

/-- The fields of the model collaborator's output dictionary
`{"predicted": ..., "attention": ..., "entropy": ...}`, with tensor payloads
abstracted to scalars. -/
structure ModelOutput where
  predicted : Rat
  attention : Rat
  entropy : Rat

/-- Embedding of `NCTrainer.run_model`.  The heap (`List Rat`) models the
tensors reachable from the computation; `out_dict` maps field names to heap
references, because the Python dictionary stores the tensor objects, not
copies.  `loss += self.alpha * output["entropy"]` is an in-place tensor add,
so it is a `store_write` to the cell that `out_dict["loss"]` already points
at, performed after `out_dict` was built. -/
def run_model (entropy_constraint calculate_entropy : Bool) (alpha : Rat)
    (criterion : Rat → Rat → Rat) (output : ModelOutput) (label : Rat) :
    List Rat × List (String × Nat) :=
  let (s1, labelRef) := store_alloc [] label
  -- loss = self.criterion(output["predicted"], batch_dict["label"])
  let (s2, lossRef) := store_alloc s1 (criterion output.predicted label)
  let (s3, predictRef) := store_alloc s2 output.predicted
  -- out_dict = {"label": ..., "loss": loss, "predict": output["predicted"]}
  let out_dict := [("label", labelRef), ("loss", lossRef), ("predict", predictRef)]
  -- if self.entropy_constraint: loss += self.alpha * output["entropy"]
  let s4 := if entropy_constraint then
      store_write s3 lossRef ((store_read s3 lossRef).getD 0 + alpha * output.entropy)
    else s3
  -- if self.calculate_entropy: out_dict.update({"attention_weight": ..., "entropy": ...})
  if calculate_entropy then
    let (s5, attRef) := store_alloc s4 output.attention
    let (s6, entRef) := store_alloc s5 output.entropy
    (s6, out_dict ++ [("attention_weight", attRef), ("entropy", entRef)])
  else (s4, out_dict)

/-- Read a field of the returned `out_dict`, dereferencing the tensor it
holds in the final heap — what a caller of `run_model` observes. -/
def run_output_read (res : List Rat × List (String × Nat)) (field : String) : Option Rat :=
  (res.2.lookup field).bind (store_read res.1)

/-- Embedding of `config.get(key, default)` on the boolean configuration
surface consumed by `NCTrainer.__init__`. -/
def config_get (config : List (String × Bool)) (key : String) (default : Bool) : Bool :=
  (config.lookup key).getD default

/-- `self.entropy_constraint = config.get("entropy_constraint", False)`. -/
def entropy_constraint_flag (config : List (String × Bool)) : Bool :=
  config_get config "entropy_constraint" false

/-- `self.calculate_entropy = config.get("calculate_entropy", self.entropy_constraint)`. -/
def calculate_entropy_flag (config : List (String × Bool)) : Bool :=
  config_get config "calculate_entropy" (entropy_constraint_flag config)

/-! ## Topic-distribution variants (nc_trainer.py, lines 135-144) -/

/-- A topic-word distribution: `[num_topics, vocab_size]` array of weights. -/
abbrev Mat : Type := Nat → Nat → Rat

/-- `removed_index = [v for k, v in data_loader.word_dict.items() if k not in
post_word_dict]`: the vocabulary indices of the words missing from the
whitelist file. -/
def removed_index (word_dict : List (String × Nat)) (post_word_dict : List String) : List Nat :=
  (word_dict.filter (fun kv => !post_word_dict.contains kv.1)).map Prod.snd

/-- `topic_dist_copy[:, removed_index] = 0`: zero the weight of every listed
vocabulary column, every topic row. -/
def zero_columns (m : Mat) (removed : List Nat) : Mat :=
  fun t v => if removed.contains v then 0 else m t v

/-- One iteration of the `for path in os.scandir(post_word_dict_dir)` loop of
`NCTrainer.topic_evaluation`: deepcopy the original distribution (which lives
in heap cell 0) into a fresh heap cell, zero the removed columns in the copy
in place, and record the new named variant. -/
def add_filtered_variant (word_dict : List (String × Nat))
    (st : List Mat × List (String × Nat)) (post : String × List String) :
    List Mat × List (String × Nat) :=
  let deref : Mat := (store_read st.1 0).getD (fun _ _ => 0)
  -- topic_dist_copy = copy.deepcopy(topic_dist)
  let (s1, r) := store_alloc st.1 deref
  -- topic_dist_copy[:, removed_index] = 0
  let s2 := store_write s1 r
      (zero_columns ((store_read s1 r).getD (fun _ _ => 0)) (removed_index word_dict post.2))
  (s2, st.2 ++ [(post.1, r)])

/-- `topic_dists = {"original": topic_dist}` followed by the whitelist-file
loop, which adds one filtered variant per `.json` file.  The original
distribution is the heap cell 0. -/
def build_topic_dists (topic_dist : Mat) (word_dict : List (String × Nat))
    (posts : List (String × List String)) : List Mat × List (String × Nat) :=
  posts.foldl (add_filtered_variant word_dict) ([topic_dist], [("original", 0)])

/-- Helper invariant: the whitelist-file loop never touches heap cell 0 (the
original distribution) and keeps `"original"` as the first variant entry. -/
theorem foldl_add_filtered_invariant (word_dict : List (String × Nat)) (topic_dist : Mat) :
    ∀ (posts : List (String × List String)) (st : List Mat × List (String × Nat)),
      (∃ rest, st.2 = ("original", 0) :: rest) →
      store_read st.1 0 = some topic_dist → st.1 ≠ [] →
      (∃ rest, (posts.foldl (add_filtered_variant word_dict) st).2 = ("original", 0) :: rest)
      ∧ store_read (posts.foldl (add_filtered_variant word_dict) st).1 0 = some topic_dist
      ∧ (posts.foldl (add_filtered_variant word_dict) st).1 ≠ [] := by
  intro posts
  induction posts with
  | nil => intro st h1 h2 h3; exact ⟨h1, h2, h3⟩
  | cons p ps ih =>
    intro st h1 h2 h3
    rw [List.foldl_cons]
    refine ih _ ?_ ?_ ?_
    · rcases h1 with ⟨rest, hrest⟩
      exact ⟨rest ++ [(p.1, st.1.length)], by simp [add_filtered_variant, store_alloc, hrest]⟩
    · have hlen : 0 < st.1.length := List.length_pos.mpr h3
      show store_read (store_write (st.1 ++ [_]) st.1.length _) 0 = some topic_dist
      unfold store_write store_read
      rw [List.get?_eq_getElem?, List.getElem?_set_ne (by omega),
        List.getElem?_append_left hlen, ← List.get?_eq_getElem?]
      exact h2
    · refine List.ne_nil_of_length_pos ?_
      show 0 < (store_write (st.1 ++ [_]) st.1.length _).length
      unfold store_write
      rw [List.length_set, List.length_append, List.length_singleton]
      omega

/-- C4: building a filtered variant zeroes, on a deep copy, the weight of
every vocabulary index whose word is missing from the whitelist, and leaves
the original distribution unchanged: whatever list of whitelist files is
processed, dereferencing the `"original"` variant still yields the untouched
`topic_dist`, so its downstream topics and scores do not depend on whether
filtered variants were computed. -/
theorem topic_dists_filtered_frame (topic_dist : Mat) (word_dict : List (String × Nat))
    (posts : List (String × List String)) (name : String) (post : List String)
    (t v : Nat) :
    ((build_topic_dists topic_dist word_dict posts).2.lookup "original").bind
        (store_read (build_topic_dists topic_dist word_dict posts).1) = some topic_dist
    ∧ store_read (build_topic_dists topic_dist word_dict [(name, post)]).1 1
        = some (zero_columns topic_dist (removed_index word_dict post))
    ∧ zero_columns topic_dist (removed_index word_dict post) t v
        = (if v ∈ removed_index word_dict post then 0 else topic_dist t v)
    ∧ (v ∈ removed_index word_dict post ↔ ∃ k, (k, v) ∈ word_dict ∧ ¬ k ∈ post) := by
  refine ⟨?_, ?_, ?_, ?_⟩
  · have H := foldl_add_filtered_invariant word_dict topic_dist posts
      ([topic_dist], [("original", 0)]) ⟨[], rfl⟩ rfl (by simp)
    rcases H with ⟨⟨rest, hrest⟩, hread, -⟩
    unfold build_topic_dists
    rw [hrest]
    simp only [List.lookup_cons_self, Option.bind_some]
    exact hread
  · rfl
  · by_cases hv : v ∈ removed_index word_dict post
    · simp [zero_columns, hv, List.elem_eq_true_of_mem]
    · have : (removed_index word_dict post).contains v = false := by
        rcases hc : (removed_index word_dict post).contains v
        · rfl
        · exact absurd (List.mem_of_elem_eq_true hc) hv
      simp [zero_columns, this, hv]
  · constructor
    · intro hv
      rcases List.mem_map.mp hv with ⟨kv, hkv, hsnd⟩
      rcases List.mem_filter.mp hkv with ⟨hmem, hflt⟩
      refine ⟨kv.1, ?_, ?_⟩
      · rw [← hsnd, Prod.mk.eta]
        exact hmem
      · intro hk
        rw [Bool.not_eq_true'] at hflt
        have hct : post.contains kv.1 = true := List.elem_eq_true_of_mem hk
        rw [hct] at hflt
        exact Bool.noConfusion hflt
    · rintro ⟨k, hkv, hk⟩
      refine List.mem_map.mpr ⟨(k, v), List.mem_filter.mpr ⟨hkv, ?_⟩, rfl⟩
      rw [Bool.not_eq_true']
      rcases hc : post.contains k
      · rfl
      · exact absurd (List.mem_of_elem_eq_true hc) hk

/-- C2: the loss carried by the returned `out_dict` already contains the
entropy-regularisation term when `entropy_constraint` is set — the in-place
`loss += alpha * entropy` mutates the very tensor `out_dict["loss"]` points
at — and equals the raw criterion value when the flag is unset. -/
theorem run_model_loss_regularized (entropy_constraint calculate_entropy : Bool)
    (alpha : Rat) (criterion : Rat → Rat → Rat) (output : ModelOutput) (label : Rat) :
    run_output_read (run_model entropy_constraint calculate_entropy alpha criterion output label) "loss"
      = some (if entropy_constraint = true
              then criterion output.predicted label + alpha * output.entropy
              else criterion output.predicted label) := by
  cases entropy_constraint <;> cases calculate_entropy <;> rfl

/-- C7: `calculate_entropy` defaults to the value of `entropy_constraint`
when not configured, and the returned `out_dict` carries the
`attention_weight` and `entropy` fields exactly when `calculate_entropy` is
set. -/
theorem run_model_entropy_fields (config : List (String × Bool))
    (entropy_constraint calculate_entropy : Bool) (alpha : Rat)
    (criterion : Rat → Rat → Rat) (output : ModelOutput) (label : Rat)
    (h : config.lookup "calculate_entropy" = none) :
    calculate_entropy_flag config = entropy_constraint_flag config
    ∧ ("attention_weight" ∈
        (run_model entropy_constraint calculate_entropy alpha criterion output label).2.map Prod.fst
        ↔ calculate_entropy = true)
    ∧ ("entropy" ∈
        (run_model entropy_constraint calculate_entropy alpha criterion output label).2.map Prod.fst
        ↔ calculate_entropy = true) := by
  refine ⟨by simp [calculate_entropy_flag, config_get, h], ?_, ?_⟩ <;>
    cases entropy_constraint <;> cases calculate_entropy <;>
      simp [run_model, store_alloc, store_write, store_read]

theorem run_model_entropy_fields_witness :
    calculate_entropy_flag [("entropy_constraint", true)]
      = entropy_constraint_flag [("entropy_constraint", true)]
    ∧ ("attention_weight" ∈
        (run_model true true 1 (fun p l => p + l) ⟨1, 2, 3⟩ 0).2.map Prod.fst
        ↔ true = true)
    ∧ ("entropy" ∈
        (run_model true true 1 (fun p l => p + l) ⟨1, 2, 3⟩ 0).2.map Prod.fst
        ↔ true = true) :=
  run_model_entropy_fields [("entropy_constraint", true)] true true 1
    (fun p l => p + l) ⟨1, 2, 3⟩ 0 rfl

/-! ## topic_evaluation dispatch and the final emptiness check
(nc_trainer.py, lines 113-180) -/

/-- Python truthiness of the `topic_scores` variable, which is either `None`
or a dictionary: `None` and `{}` are falsy. -/
def truthy (ts : Option (List (String × Rat))) : Bool :=
  match ts with
  | none => false
  | some l => !l.isEmpty

/-- Python `d[k] = v` on an insertion-ordered dictionary: overwrite in place
when the key exists, append otherwise. -/
def assoc_set (d : List (String × Rat)) (k : String) (v : Rat) : List (String × Rat) :=
  if d.any (fun kv => kv.1 == k) then d.map (fun kv => if kv.1 == k then (k, v) else kv)
  else d ++ [(k, v)]

/-- Python `d.update(e)` on insertion-ordered dictionaries. -/
def dict_update_entries (d e : List (String × Rat)) : List (String × Rat) :=
  e.foldl (fun acc kv => assoc_set acc kv.1 kv.2) d

/-- One iteration of the `for key, dist in topic_dists.items():` loop of
`NCTrainer.topic_evaluation`, carrying `(topic_result, topic_scores)` across
iterations exactly as the source does (`topic_scores` is initialised once,
before the loop).  `fast_score key`, `slow_score key m` and `w2v_score key`
abstract the NPMI scorer, `compute_coherence` and the embedding-similarity
computation for the variant `key`; `report` abstracts the per-entry
postprocessing (`save_topic_info` scoring, or `np.round(np.mean(c), 4)`)
applied to `topic_scores` before `topic_result.update`.  Note the source
literally writes the f-string `f"{key}_m"`, so every coherence method lands
on the same dictionary key. -/
def topic_eval_step (methods coherence_methods : List String)
    (fast_score : String → Rat) (slow_score : String → String → Rat)
    (w2v_score : String → Rat) (report : Rat → Rat)
    (st : List (String × Rat) × Option (List (String × Rat))) (key : String) :
    List (String × Rat) × Option (List (String × Rat)) :=
  -- if "fast_eval" in topic_evaluation_method: topic_scores = {f"{key}_c_npmi": ...}
  let ts1 := if methods.contains "fast_eval"
    then some [(key ++ "_c_npmi", fast_score key)] else st.2
  -- if "slow_eval" in topic_evaluation_method:
  --   topic_scores = {f"{key}_m": compute_coherence(topic_list, ..., m, ...) for m in methods}
  let ts2 := if methods.contains "slow_eval"
    then some (coherence_methods.foldl (fun d m => assoc_set d (key ++ "_m") (slow_score key m)) [])
    else ts1
  -- if ("slow_eval" in ... or "fast_eval" in ...) and topic_scores: topic_result.update(...)
  let tr1 := if (methods.contains "slow_eval" || methods.contains "fast_eval") && truthy ts2
    then dict_update_entries st.1 ((ts2.getD []).map (fun kv => (kv.1, report kv.2)))
    else st.1
  -- if "w2v_sim" in topic_evaluation_method: topic_result.update({f"{key}_w2v_sim": ...})
  let tr2 := if methods.contains "w2v_sim"
    then dict_update_entries tr1 [(key ++ "_w2v_sim", w2v_score key)]
    else tr1
  (tr2, ts2)

/-- Embedding of the result/raise behaviour of `NCTrainer.topic_evaluation`:
run the variant loop over the keys of `topic_dists` starting from
`topic_result, topic_scores = {}, None`, then
`if not len(topic_result): raise ValueError(...)`.  A `methods? = none`
configuration (`config.get("topic_evaluation_method", None)`) makes the very
first membership test `"fast_eval" in None` raise a `TypeError`. -/
def topic_evaluation (methods? : Option (List String)) (coherence_methods : List String)
    (variant_keys : List String) (fast_score : String → Rat)
    (slow_score : String → String → Rat) (w2v_score : String → Rat) (report : Rat → Rat) :
    Except String (List (String × Rat)) :=
  match methods? with
  | none => Except.error "TypeError: argument of type NoneType is not iterable"
  | some methods =>
    let res := (variant_keys.foldl
      (topic_eval_step methods coherence_methods fast_score slow_score w2v_score report)
      ([], none)).1
    if res.isEmpty then Except.error "No correct topic evaluation method is specified!"
    else Except.ok res

/-- Helper: with no productive method configured, the variant loop keeps
`topic_result` empty and `topic_scores` falsy. -/
theorem topic_eval_step_empty (methods coherence_methods : List String)
    (fast_score : String → Rat) (slow_score : String → String → Rat)
    (w2v_score : String → Rat) (report : Rat → Rat)
    (hf : ¬ ("fast_eval" ∈ methods))
    (hw : ¬ ("w2v_sim" ∈ methods))
    (hs : ¬ ("slow_eval" ∈ methods) ∨ coherence_methods = []) :
    ∀ (keys : List String) (st : List (String × Rat) × Option (List (String × Rat))),
      st.1 = [] → truthy st.2 = false →
      (keys.foldl (topic_eval_step methods coherence_methods fast_score slow_score
        w2v_score report) st).1 = [] := by
  intro keys
  induction keys with
  | nil => intro st h1 _; exact h1
  | cons key ks ih =>
    intro st h1 h2
    rw [List.foldl_cons]
    by_cases hsl : "slow_eval" ∈ methods
    · rcases hs with hs | hs
      · exact absurd hsl hs
      · subst hs
        refine ih _ ?_ ?_
        · simp [topic_eval_step, hf, hw, hsl, h1, h2, truthy]
        · simp [topic_eval_step, hf, hsl, truthy]
    · refine ih _ ?_ ?_
      · simp [topic_eval_step, hf, hw, hsl, h1, h2]
      · simp [topic_eval_step, hf, hsl, h2]

/-- C5: when no recognised topic-evaluation method produces a score
(`fast_eval` absent, `w2v_sim` absent, and `slow_eval` absent or with no
coherence method configured), `topic_evaluation` raises instead of returning
an empty report; and it never returns an empty mapping, so an `ok` result is
always a non-empty score report. -/
theorem topic_evaluation_raises_or_nonempty (methods? : Option (List String))
    (coherence_methods variant_keys : List String) (fast_score : String → Rat)
    (slow_score : String → String → Rat) (w2v_score : String → Rat)
    (report : Rat → Rat) (methods : List String) :
    (methods? = some methods → ¬ ("fast_eval" ∈ methods) →
      ¬ ("w2v_sim" ∈ methods) →
      (¬ ("slow_eval" ∈ methods) ∨ coherence_methods = []) →
      topic_evaluation methods? coherence_methods variant_keys fast_score slow_score
        w2v_score report = Except.error "No correct topic evaluation method is specified!")
    ∧ topic_evaluation methods? coherence_methods variant_keys fast_score slow_score
        w2v_score report ≠ Except.ok [] := by
  constructor
  · intro hm hf hw hs
    subst hm
    have hempty := topic_eval_step_empty methods coherence_methods fast_score slow_score
      w2v_score report hf hw hs variant_keys ([], none) rfl rfl
    unfold topic_evaluation
    simp only [hempty, List.isEmpty_nil, if_true]
  · unfold topic_evaluation
    cases methods? with
    | none =>
      intro hc
      exact Except.noConfusion hc
    | some ms =>
      simp only
      split
      · intro hc
        exact Except.noConfusion hc
      · rename_i hne
        intro hc
        rw [Except.ok.injEq] at hc
        exact hne (by rw [hc]; rfl)

theorem topic_evaluation_raises_or_nonempty_witness :
    topic_evaluation (some ["npmi"]) ["c_npmi"] ["original"] (fun _ => 0)
        (fun _ _ => 0) (fun _ => 0) (fun x => x)
      = Except.error "No correct topic evaluation method is specified!"
    ∧ topic_evaluation (some ["fast_eval"]) ["c_npmi"] ["original"] (fun _ => 0)
        (fun _ _ => 0) (fun _ => 0) (fun x => x) ≠ Except.ok [] :=
  ⟨(topic_evaluation_raises_or_nonempty (some ["npmi"]) ["c_npmi"] ["original"]
      (fun _ => 0) (fun _ _ => 0) (fun _ => 0) (fun x => x) ["npmi"]).1
      rfl (by decide) (by decide) (Or.inl (by decide)),
    (topic_evaluation_raises_or_nonempty (some ["fast_eval"]) ["c_npmi"] ["original"]
      (fun _ => 0) (fun _ _ => 0) (fun _ => 0) (fun x => x) ["fast_eval"]).2⟩

/-! ## w2v_sim (nc_trainer.py, lines 172-177) -/

/-- Cosine similarity of two word vectors, as computed by
`sklearn.metrics.pairwise.cosine_similarity`: inner product divided by the
product of Euclidean norms. -/
noncomputable def cosine_similarity {dim : Nat} (u v : Fin dim → Real) : Real :=
  (∑ i, u i * v i) / (Real.sqrt (∑ i, u i ^ 2) * Real.sqrt (∑ i, v i ^ 2))

/-- One topic's `np.sum(np.triu(cosine_similarity(embeddings[i]), 1))`: the
`n × n` pairwise cosine-similarity matrix of the topic's word vectors, with
everything on or below the diagonal zeroed (`k=1`), then summed. -/
noncomputable def topic_triu_sim_sum {dim : Nat} (embeddings : Nat → Fin dim → Real)
    (topic : List Nat) : Real :=
  ∑ p ∈ Finset.range topic.length, ∑ q ∈ Finset.range topic.length,
    if p < q then
      cosine_similarity (embeddings (topic.getD p 0)) (embeddings (topic.getD q 0))
    else 0

/-- Embedding of the `w2v_sim` branch of `NCTrainer.topic_evaluation`:
`count = model.head_num * top_n * (top_n - 1) / 2` and `w2v_sim =
sum([np.sum(np.triu(cosine_similarity(embeddings[i]), 1)) for i in
topic_index]) / count`. -/
noncomputable def w2v_sim {dim : Nat} (embeddings : Nat → Fin dim → Real)
    (topic_index : List (List Nat)) (head_num top_n : Nat) : Real :=
  (topic_index.map (topic_triu_sim_sum embeddings)).sum /
    ((head_num : Real) * (top_n : Real) * ((top_n : Real) - 1) / 2)

/-- The w2v similarity score as the spec describes it: for each topic the sum
of the pairwise cosine similarities over the strictly-upper-triangular index
pairs `p < q` (diagonal excluded), summed over topics, divided by the number
`num_topics * (top_n choose 2)` of counted pairs — `top_n choose 2` being
`top_n * (top_n - 1) / 2`. -/
noncomputable def w2v_sim_spec {dim : Nat} (embeddings : Nat → Fin dim → Real)
    (topic_index : List (List Nat)) (num_topics top_n : Nat) : Real :=
  (topic_index.map (fun topic =>
      ∑ q ∈ Finset.range topic.length, ∑ p ∈ Finset.range q,
        cosine_similarity (embeddings (topic.getD p 0)) (embeddings (topic.getD q 0)))).sum /
    ((num_topics * Nat.choose top_n 2 : Nat) : Real)

/-- Helper: summing an upper-triangularised (`k=1`) square matrix equals
summing its entries over the strict index pairs `p < q`. -/
theorem triu_sum_eq_pair_sum (n : Nat) (f : Nat → Nat → Real) :
    (∑ p ∈ Finset.range n, ∑ q ∈ Finset.range n, if p < q then f p q else 0)
      = ∑ q ∈ Finset.range n, ∑ p ∈ Finset.range q, f p q := by
  rw [Finset.sum_comm]
  refine Finset.sum_congr rfl ?_
  intro q hq
  rw [Finset.mem_range] at hq
  rw [← Finset.sum_filter]
  refine Finset.sum_congr ?_ (fun _ _ => rfl)
  ext p
  simp only [Finset.mem_filter, Finset.mem_range]
  omega

/-- Helper: the Python float `head_num * top_n * (top_n - 1) / 2` equals the
integer pair count `head_num * (top_n choose 2)`. -/
theorem count_cast (h n : Nat) :
    (h : Real) * (n : Real) * ((n : Real) - 1) / 2 = ((h * Nat.choose n 2 : Nat) : Real) := by
  cases n with
  | zero => simp
  | succ m =>
    have hc2 : Nat.choose (m + 1) 2 = (m + 1) * m / 2 := by
      rw [Nat.choose_two_right]
      simp
    have hdvd : 2 ∣ (m + 1) * m := by
      rw [Nat.mul_comm]
      exact (Nat.even_mul_succ_self m).two_dvd
    rcases hdvd with ⟨c, hcc⟩
    have hdiv : (m + 1) * m / 2 = c := by
      rw [hcc]
      exact Nat.mul_div_cancel_left c (by norm_num)
    rw [hc2, hdiv]
    push_cast
    have hcR : ((m : Real) + 1) * (m : Real) = 2 * (c : Real) := by
      have h0 := congrArg (fun x : Nat => (x : Real)) hcc
      push_cast at h0
      linarith
    have harr : (h : Real) * ((m : Real) + 1) * ((m : Real) + 1 - 1) / 2
        = (h : Real) * (((m : Real) + 1) * (m : Real)) / 2 := by ring
    rw [harr, hcR]
    ring

/-- C8: the embedding-similarity score computed by the `w2v_sim` branch —
per-topic upper-triangular (`np.triu(..., 1)`) cosine-similarity sums over
the topics, divided by `head_num * top_n * (top_n - 1) / 2` — equals the sum
over topics of the strictly-upper-triangular (diagonal excluded) pairwise
cosine similarities among each topic's word vectors, divided by the pair
count `num_topics * (top_n choose 2)`. -/
theorem w2v_sim_eq_spec {dim : Nat} (embeddings : Nat → Fin dim → Real)
    (topic_index : List (List Nat)) (head_num top_n : Nat) :
    w2v_sim embeddings topic_index head_num top_n
      = w2v_sim_spec embeddings topic_index head_num top_n := by
  have hfun : topic_triu_sim_sum embeddings
      = fun topic : List Nat =>
        ∑ q ∈ Finset.range topic.length, ∑ p ∈ Finset.range q,
          cosine_similarity (embeddings (topic.getD p 0)) (embeddings (topic.getD q 0)) := by
    funext topic
    exact triu_sum_eq_pair_sum topic.length _
  unfold w2v_sim w2v_sim_spec
  rw [count_cast head_num top_n, hfun]

/-! ## Claim theorems for the loop bound, gather and sampling -/

/-- C1 (evaluation of the code at the failing input): with `len_epoch = 2` and a
loader iterator that yields 3 batches, the `_train_epoch` loop performs 3
optimizer steps — one more than `len_epoch` — because the defensive cutoff
`if batch_idx == self.len_epoch: break` runs only after the
`optimizer.step()` of that iteration. -/
theorem train_epoch_steps_exceeds_len_epoch :
    train_epoch_steps 2 [(), (), ()] 0 = 3 ∧ 2 < train_epoch_steps 2 [(), (), ()] 0 := by
  exact ⟨rfl, by decide⟩

/-- C9: in a single-process execution (the distributed runtime is not
initialised) `gather_dict` is an identity: the input dictionary is returned
with exactly the same keys and values. -/
theorem gather_dict_single_process {K V : Type} (dict_object : K → Option V)
    (parts : Nat → K → Option V) (process_num : Nat) :
    gather_dict false dict_object parts process_num = dict_object := rfl

/-- C3: the merged dictionary binds each key to the value held by the
highest-numbered rank whose partial dictionary contains that key (last writer
wins in rank order `0..process_num-1`); when the ranks' key sets are pairwise
disjoint, the result is exactly the union of all partial dictionaries — a key
is bound to `v` iff some rank binds it to `v`.  The caller's own dictionary is
rank `r`'s contribution, as in the source, where `dict_object` is both the
merge accumulator and the object sent to `all_gather_object`. -/
theorem gather_dict_last_writer {K V : Type} (own : K → Option V)
    (parts : Nat → K → Option V) (n r : Nat) (k : K) (i : Nat) (v : V)
    (hr : r < n) (hown : own = parts r) :
    (i < n → (parts i k).isSome → (∀ j, i < j → j < n → parts j k = none) →
      gather_dict true own parts n k = parts i k)
    ∧ ((∀ a, a < n → ∀ b, b < n → a ≠ b → ∀ x, (parts a x).isSome → parts b x = none) →
      (gather_dict true own parts n k = some v ↔ ∃ j, j < n ∧ parts j k = some v)) := by
  constructor
  · intro hi hs hl
    show gather_merge own parts n k = parts i k
    exact gather_merge_last_writer own parts n k i hi hs hl
  · intro hdisj
    constructor
    · intro h
      rcases gather_merge_mem own parts n k v h with ⟨j, hj, hjv⟩ | hown2
      · exact ⟨j, hj, hjv⟩
      · exact ⟨r, hr, by rw [← hown]; exact hown2⟩
    · rintro ⟨j, hj, hjv⟩
      have hjs : (parts j k).isSome := by rw [hjv]; rfl
      have hstep := gather_merge_last_writer own parts n k j hj hjs
        (fun j2 hjj2 hj2 => hdisj j hj j2 hj2 (Nat.ne_of_lt hjj2) k hjs)
      show gather_merge own parts n k = some v
      rw [hstep, hjv]

/-- Concrete three-rank family of partial dictionaries with pairwise disjoint
key sets: rank `i` owns exactly the key `i` (keys drawn from `Fin 4`). -/
def wParts (i : Nat) : Fin 4 → Option Nat :=
  fun k => if k.val = i then some (i + 1) else none

theorem gather_dict_last_writer_witness :
    gather_dict true (wParts 0) wParts 3 2 = wParts 2 2
    ∧ gather_dict true (wParts 0) wParts 3 1 = some 2 := by
  have H2 := gather_dict_last_writer (wParts 0) wParts 3 0 (2 : Fin 4) 2 3 (by omega) rfl
  have H1 := gather_dict_last_writer (wParts 0) wParts 3 0 (1 : Fin 4) 0 2 (by omega) rfl
  refine ⟨H2.1 (by omega) (by decide) ?_, (H1.2 (by decide)).mpr ⟨1, by omega, by decide⟩⟩
  intro j h1 h2
  exact absurd h2 (by omega)

/-- C6 counterexample: the claim says the device transfer is skipped whenever
`multi_gpu` is true, but with the distributed runtime not initialised and
`multi_gpu = true` the batch is still moved onto the device, so the returned
mapping differs from the input. -/
theorem load_batch_data_multi_gpu_not_skipped :
    load_batch_data false [("news", ⟨[3], 0⟩)] 1 true ≠ [("news", ⟨[3], 0⟩)] := by
  decide

/-- C6 (amended): the batch is moved onto the compute device unless the
distributed runtime is initialised AND `multi_gpu` is true, in which case the
transfer is skipped and the batch mapping is returned unchanged. -/
theorem load_batch_data_device_transfer (distributed multi_gpu : Bool)
    (batch_dict : List (String × Tensor)) (device : Nat)
    (h : distributed = false ∨ multi_gpu = false) :
    load_batch_data distributed batch_dict device multi_gpu
      = batch_dict.map (fun kv => (kv.1, kv.2.toDev device))
    ∧ load_batch_data true batch_dict device true = batch_dict := by
  constructor
  · rcases h with h | h <;> subst h <;> simp [load_batch_data]
  · simp [load_batch_data]

theorem load_batch_data_device_transfer_witness :
    load_batch_data false [("news", ⟨[3], 0⟩)] 1 true = [("news", ⟨[3], 1⟩)]
    ∧ load_batch_data true [("news", ⟨[3], 0⟩)] 1 true = [("news", ⟨[3], 0⟩)] :=
  load_batch_data_device_transfer false true [("news", ⟨[3], 0⟩)] 1 (Or.inl rfl)

/-- C10: `news_sampling(news, ratio)` always returns a list of length exactly
`ratio`; when `ratio` exceeds `len(news)` it returns `news` with
`ratio - len(news)` zeros appended (original elements and order preserved),
otherwise it returns a `ratio`-element sample all of whose elements come from
`news`. -/
theorem news_sampling_spec (choose : Nat → Nat) (news : List Int) ( ratio : Nat) :
    (news_sampling choose news ratio).length = ratio
    ∧ (news.length < ratio →
        news_sampling choose news ratio = news ++ List.replicate ( ratio - news.length) 0)
    ∧ ( ratio ≤ news.length →
        (news_sampling choose news ratio).all (fun y => news.contains y) = true) := by
  refine ⟨?_, ?_, ?_⟩
  · unfold news_sampling
    split
    · rename_i h
      rw [List.length_append, List.length_replicate]
      omega
    · rename_i h
      rw [random_sample_length]
      omega
  · intro h
    simp [news_sampling, h]
  · intro h
    unfold news_sampling
    rw [if_neg (by omega), List.all_eq_true]
    intro y hy
    exact List.elem_eq_true_of_mem (random_sample_mem choose ratio news y hy)

theorem news_sampling_spec_witness :
    (news_sampling (fun _ => 0) [5, 7] 4).length = 4
    ∧ news_sampling (fun _ => 0) [5, 7] 4 = [5, 7] ++ List.replicate 2 0
    ∧ (news_sampling (fun _ => 0) [5, 7] 1).all (fun y => [5, 7].contains y) = true :=
  ⟨(news_sampling_spec (fun _ => 0) [5, 7] 4).1,
    (news_sampling_spec (fun _ => 0) [5, 7] 4).2.1 (by decide),
    (news_sampling_spec (fun _ => 0) [5, 7] 1).2.2 (by decide)⟩

end ExplainedNRS
